import Mathlib

/-!
Shallow embedding of `packages/deno-lint/src/lib.rs` (denolint bindings):
the media-type classifier, the path resolver, the ignore-file selection,
the walk-root computation and the directory-scan lint loop, together with
theorems about the specified behaviour.

Filesystem access, the external lint engine, the configuration loader and
the diagnostics formatter are effectful or external collaborators; they are
modelled as explicit function parameters (oracles), so every definition
stays executable on concrete inputs.
-/

/-- Source dialect tag, mirroring the subset of deno_ast MediaType used by
get_media_type in lib.rs. -/
inductive MediaType : Type where
  | Tsx
  | Jsx
  | JavaScript
  | TypeScript
deriving DecidableEq, Repr

/-- Model of napi status codes used in lib.rs error paths. -/
inductive Status : Type where
  | Ok
  | StringExpected
  | GenericFailure
deriving DecidableEq, Repr

/-- Model of a napi Error: a status plus a reason string. Error::from_reason
produces Status.GenericFailure. -/
structure NapiError : Type where
  status : Status
  reason : String
deriving DecidableEq, Repr

/-- Decidable equality for Except results, used to evaluate the embedding
on concrete inputs. -/
instance {ε α : Type} [DecidableEq ε] [DecidableEq α] : DecidableEq (Except ε α) := fun x y =>
  match x, y with
  | Except.error a, Except.error b =>
    if h : a = b then Decidable.isTrue (by rw [h])
    else Decidable.isFalse (by intro hc; injection hc; contradiction)
  | Except.error _, Except.ok _ => Decidable.isFalse (fun hc => Except.noConfusion hc)
  | Except.ok _, Except.error _ => Decidable.isFalse (fun hc => Except.noConfusion hc)
  | Except.ok a, Except.ok b =>
    if h : a = b then Decidable.isTrue (by rw [h])
    else Decidable.isFalse (by intro hc; injection hc; contradiction)

/-- Model of Rust Path::file_name for forward-slash paths: the characters
after the last separator. Accumulator is reset at each separator. -/
def fileNameAux (acc : List Char) : List Char → List Char
  | [] => acc
  | c :: cs => if c = '/' then fileNameAux [] cs else fileNameAux (acc ++ [c]) cs

/-- The final component of a path string (model of Path::file_name for
ordinary paths without trailing separators or dot components). -/
def fileNameOf (p : String) : String :=
  String.mk (fileNameAux [] p.data)

/-- Split a character list at its last dot: returns (before, after) for the
last occurrence of a dot, mirroring str::rsplit_once used by
Path::extension. -/
def rsplitDot : List Char → Option (List Char × List Char)
  | [] => none
  | c :: cs =>
    match rsplitDot cs with
    | some (b, a) => some (c :: b, a)
    | none => if c = '.' then some ([], cs) else none

/-- Model of Rust Path::extension composed with OsStr::to_str (which always
succeeds on our string paths): the part of the file name after the last dot,
unless the part before the last dot is empty (hidden files such as
".gitignore" have no extension). -/
def rustExtension (p : String) : Option String :=
  match rsplitDot (fileNameOf p).data with
  | none => none
  | some (b, a) => if b = [] then none else some (String.mk a)

/-- Embedding of get_media_type in lib.rs (lines 27-36): match on the
path's extension, defaulting to Tsx. -/
def get_media_type (p : String) : MediaType :=
  match rustExtension p with
  | some e =>
    if e = "tsx" then MediaType.Tsx
    else if e = "jsx" then MediaType.Jsx
    else if e = "js" ∨ e = "mjs" then MediaType.JavaScript
    else if e = "ts" then MediaType.TypeScript
    else MediaType.Tsx
  | none => MediaType.Tsx

/-- ASCII lowercasing of one character (uppercase letters shifted into the
lowercase range, everything else unchanged). -/
def lowerChar (c : Char) : Char :=
  if 'A' ≤ c ∧ c ≤ 'Z' then Char.ofNat (c.toNat + 32) else c

/-- ASCII lowercasing of a string, used to state case-(in)sensitivity. -/
def lowerStr (s : String) : String :=
  String.mk (s.data.map lowerChar)

/-- startsList n h is true when the character list n is an initial segment
of h; used as the model of str::starts_with. -/
def startsList : List Char → List Char → Bool
  | [], _ => true
  | _ :: _, [] => false
  | a :: as, b :: bs => a = b && startsList as bs

/-- Whether a path string is absolute (Unix model of Path::is_absolute). -/
def isAbsolute (p : String) : Bool :=
  startsList ['/'] p.data

/-- Whether a path string ends with the separator. -/
def endsSep (base : String) : Bool :=
  match base.data.getLast? with
  | some '/' => true
  | _ => false

/-- Model of PathBuf::push: an absolute path replaces the base, otherwise
the path is appended after a separator. -/
def pushPath (base p : String) : String :=
  if isAbsolute p then p
  else if endsSep base then base ++ p else base ++ "/" ++ p

/-- Embedding of make_absolute in lib.rs (lines 38-59). The filesystem
canonicalization is an oracle: some q when fs::canonicalize succeeds with q,
none when it fails. On success the extended-length prefix (four characters,
backslash backslash question-mark backslash) is stripped, the UNC
workaround; on failure the code returns PathBuf::from(p), i.e. the raw
input string, not the joined buffer. -/
def make_absolute (canonicalize : String → Option String) (p : String) (cwd : String) : String :=
  if isAbsolute p then p
  else
    let buf := pushPath cwd p
    match canonicalize buf with
    | some q =>
      if startsList ['\\', '\\', '?', '\\'] q.data then String.mk (q.data.drop 4) else q
    | none => p

/-- Embedding of the ignore-file selection in denolint (lib.rs lines
127-167): try to open .denolintignore in the working directory, then
.eslintignore in the working directory, and fall back to the
caller-supplied __dirname. The oracle openOk tells whether fs::File::open
succeeds for a path. Path-to-string conversion always succeeds on our
string paths, so those error branches are not reachable in the model. -/
def selectIgnoreFile (openOk : String → Bool) (cwd dirname : String) : String :=
  let denolint_ignore_file := pushPath cwd ".denolintignore"
  let eslint_ignore_file := pushPath cwd ".eslintignore"
  if openOk denolint_ignore_file then denolint_ignore_file
  else if openOk eslint_ignore_file then eslint_ignore_file
  else dirname

/-- The configuration of the directory walker assembled by denolint
(lib.rs lines 168-207): the root passed to the final WalkBuilder::new, the
additional paths added with dir_walker.add, the custom ignore file name,
the override patterns built from files.exclude, and the ignore files added
with add_ignore. -/
structure WalkPlan : Type where
  root : String
  added : List String
  customIgnore : String
  overridePatterns : List String
  addedIgnoreFiles : List String
deriving DecidableEq, Repr

/-- Embedding of the walker construction in denolint (lib.rs lines
168-207). The walkers built on lines 168 and 174 are immediately shadowed
by the binding on line 181, so only the root chosen on lines 176-180 is
effective: the first explicit scan directory when any was supplied,
otherwise the working directory. The binding dir (lines 169-173), which
resolves the first files.include entry, is computed and then discarded by
the shadowing. The override block (lines 186-198) attaches one negated
pattern per files.exclude entry; the loops on lines 199-207 add the
remaining files.include entries, the remaining scan directories and the
files.exclude entries as extra ignore files. -/
def buildWalkPlan (canonicalize : String → Option String) (cwd ignoreFilePath : String)
    (cfgIgnore cfgAdd : List String) (scanDirs : Option (List String)) : WalkPlan :=
  let dir := match cfgAdd with
    | [] => cwd
    | f :: _ => make_absolute canonicalize f cwd
  let dirs := scanDirs.getD []
  let root := match dirs with
    | [] => cwd
    | d :: _ => d
  { root := root
    added := (cfgAdd.drop 1).map (fun i => make_absolute canonicalize i cwd) ++ dirs.drop 1
    customIgnore := ignoreFilePath
    overridePatterns := if cfgIgnore.isEmpty then [] else cfgIgnore.map (fun f => "!" ++ f)
    addedIgnoreFiles := cfgIgnore }

/-- A UTF-8 decoding failure, mirroring core::str::Utf8Error: the index of
the first invalid byte and, when the input is not merely truncated, the
length of the invalid sequence. -/
structure Utf8Error : Type where
  valid_up_to : Nat
  error_len : Option Nat
deriving DecidableEq, Repr

/-- Display of Utf8Error, mirroring its Display implementation in core. -/
def utf8ErrorDisplay (e : Utf8Error) : String :=
  match e.error_len with
  | some n =>
    "invalid utf-8 sequence of " ++ Nat.repr n ++ " bytes from index " ++ Nat.repr e.valid_up_to
  | none => "incomplete utf-8 byte sequence from index " ++ Nat.repr e.valid_up_to

/-- Whether a byte is a UTF-8 continuation byte (0x80-0xBF). -/
def isUtf8Cont (b : Nat) : Bool :=
  0x80 ≤ b && b ≤ 0xBF

/-- Valid (first, second) byte combinations of a three-byte UTF-8 sequence,
as checked by core::str::run_utf8_validation. -/
def utf8ThreeOk (b0 b1 : Nat) : Bool :=
  (b0 = 0xE0 && 0xA0 ≤ b1 && b1 ≤ 0xBF) ||
  (0xE1 ≤ b0 && b0 ≤ 0xEC && 0x80 ≤ b1 && b1 ≤ 0xBF) ||
  (b0 = 0xED && 0x80 ≤ b1 && b1 ≤ 0x9F) ||
  (0xEE ≤ b0 && b0 ≤ 0xEF && 0x80 ≤ b1 && b1 ≤ 0xBF)

/-- Valid (first, second) byte combinations of a four-byte UTF-8 sequence,
as checked by core::str::run_utf8_validation. -/
def utf8FourOk (b0 b1 : Nat) : Bool :=
  (b0 = 0xF0 && 0x90 ≤ b1 && b1 ≤ 0xBF) ||
  (0xF1 ≤ b0 && b0 ≤ 0xF3 && 0x80 ≤ b1 && b1 ≤ 0xBF) ||
  (b0 = 0xF4 && 0x80 ≤ b1 && b1 ≤ 0x8F)

/-- Model of str::from_utf8 validation and decoding, following
core::str::run_utf8_validation: the first argument is the index of the
current byte, used to report valid_up_to; error_len is the length of the
invalid prefix of the offending sequence, or none when the input ends in
the middle of a sequence. -/
def utf8DecodeFrom : Nat → List Nat → Except Utf8Error (List Char)
  | _, [] => Except.ok []
  | i, b :: rest =>
    if b < 0x80 then
      match utf8DecodeFrom (i + 1) rest with
      | Except.ok cs => Except.ok (Char.ofNat b :: cs)
      | Except.error e => Except.error e
    else if b < 0xC2 then Except.error ⟨i, some 1⟩
    else if b ≤ 0xDF then
      match rest with
      | [] => Except.error ⟨i, none⟩
      | b1 :: rest1 =>
        if isUtf8Cont b1 then
          match utf8DecodeFrom (i + 2) rest1 with
          | Except.ok cs => Except.ok (Char.ofNat ((b - 0xC0) * 64 + (b1 - 0x80)) :: cs)
          | Except.error e => Except.error e
        else Except.error ⟨i, some 1⟩
    else if b ≤ 0xEF then
      match rest with
      | [] => Except.error ⟨i, none⟩
      | b1 :: rest1 =>
        if utf8ThreeOk b b1 then
          match rest1 with
          | [] => Except.error ⟨i, none⟩
          | b2 :: rest2 =>
            if isUtf8Cont b2 then
              match utf8DecodeFrom (i + 3) rest2 with
              | Except.ok cs =>
                Except.ok (Char.ofNat ((b - 0xE0) * 4096 + (b1 - 0x80) * 64 + (b2 - 0x80)) :: cs)
              | Except.error e => Except.error e
            else Except.error ⟨i, some 2⟩
        else Except.error ⟨i, some 1⟩
    else if b ≤ 0xF4 then
      match rest with
      | [] => Except.error ⟨i, none⟩
      | b1 :: rest1 =>
        if utf8FourOk b b1 then
          match rest1 with
          | [] => Except.error ⟨i, none⟩
          | b2 :: rest2 =>
            if isUtf8Cont b2 then
              match rest2 with
              | [] => Except.error ⟨i, none⟩
              | b3 :: rest3 =>
                if isUtf8Cont b3 then
                  match utf8DecodeFrom (i + 4) rest3 with
                  | Except.ok cs =>
                    Except.ok (Char.ofNat ((b - 0xF0) * 262144 + (b1 - 0x80) * 4096 +
                      (b2 - 0x80) * 64 + (b3 - 0x80)) :: cs)
                  | Except.error e => Except.error e
                else Except.error ⟨i, some 3⟩
            else Except.error ⟨i, some 2⟩
        else Except.error ⟨i, some 1⟩
    else Except.error ⟨i, some 1⟩

/-- Model of str::from_utf8 on a byte buffer: either the decoded text or a
Utf8Error. -/
def str_from_utf8 (b : List Nat) : Except Utf8Error String :=
  match utf8DecodeFrom 0 b with
  | Except.ok cs => Except.ok (String.mk cs)
  | Except.error e => Except.error e

/-- Model of the Debug formatting of a path, which wraps it in quotes. -/
def dbgQuote (s : String) : String :=
  "\"" ++ s ++ "\""

/-- strOccursAux n h is true when n occurs contiguously somewhere in h;
used to state that a message mentions a file name. -/
def strOccursAux : List Char → List Char → Bool
  | n, [] => n.isEmpty
  | n, c :: rest => startsList n (c :: rest) || strOccursAux n rest

/-- Whether one string occurs as a contiguous substring of another. -/
def strOccurs (needle hay : String) : Bool :=
  strOccursAux needle.data hay.data

/-- The external collaborators of lib.rs, modelled as oracles. filterRules
is modelled from the spec: config.rs is not under src/, and its
filter_rules (single-file rule selection from the allRules flag and the
exclude/include name lists) is consumed as an opaque selector returning an
abstract rule set R. lintFile stands for LinterBuilder::build().lint with
a given rule set, media type, file name and content, returning either the
engine error text or the list of diagnostics (opaque type D). display
stands for diagnostics::display_diagnostics (diagnostics.rs is not under
src/ either), producing formatted issue lines or a rendering error.
readFile stands for fs::read_to_string, producing the content or the
error detail text. -/
structure Engine (R D : Type) : Type where
  filterRules : Bool → Option (List String) → Option (List String) → R
  readFile : String → Except String String
  lintFile : R → MediaType → String → String → Except String (List D)
  display : List D → String → Except String (List String)

/-- Embedding of the napi function lint (lib.rs lines 61-101): build the
rule set from the flags, classify the file, decode the source when it is a
byte buffer (failing with Status.StringExpected on invalid UTF-8), run the
engine and format the diagnostics. -/
def lint {R D : Type} (E : Engine R D) (file_name : String)
    (source_code : String ⊕ List Nat) (all_rules : Option Bool)
    (exclude_rules include_rules : Option (List String)) : Except NapiError (List String) :=
  let rules := E.filterRules (all_rules.getD false) exclude_rules include_rules
  let media := get_media_type file_name
  let sourceString : Except NapiError String :=
    match source_code with
    | Sum.inl s => Except.ok s
    | Sum.inr b =>
      match str_from_utf8 b with
      | Except.ok s => Except.ok s
      | Except.error e =>
        Except.error ⟨Status.StringExpected,
          "Input source is not valid utf8 string " ++ utf8ErrorDisplay e⟩
  match sourceString with
  | Except.error err => Except.error err
  | Except.ok s =>
    match E.lintFile rules media file_name s with
    | Except.error e =>
      Except.error ⟨Status.GenericFailure, "Lint failed: " ++ e ++ ", at: " ++ file_name⟩
    | Except.ok diags =>
      match E.display diags file_name with
      | Except.error err => Except.error ⟨Status.GenericFailure, err⟩
      | Except.ok issues => Except.ok issues

/-- One entry produced by the directory walker: its path and whether it is
a regular file. -/
structure Entry : Type where
  path : String
  isFile : Bool
deriving DecidableEq, Repr

/-- A record of one invocation of the lint engine during the directory
scan: the rule set it was given, the classified media type, the file path
and the engine result. -/
structure LintCall (R D : Type) : Type where
  rules : R
  media : MediaType
  path : String
  result : Except String (List D)
deriving DecidableEq

/-- Embedding of the per-entry loop of denolint (lib.rs lines 208-241),
together with the trace of lint-engine invocations it performs. Directory
entries are skipped; for a file, the content is read (a read failure such
as non-UTF-8 content aborts the whole loop with the wrapped path and
detail), the engine is invoked with the shared rule set and the file's
media type, has_error is accumulated as the disjunction with the
non-emptiness of the file's diagnostics, and the formatted issues are
emitted. -/
def processEntries {R D : Type} (E : Engine R D) (rules : R) :
    List Entry → Bool → Except NapiError Bool × List (LintCall R D)
  | [], hasError => (Except.ok hasError, [])
  | e :: rest, hasError =>
    if e.isFile then
      match E.readFile e.path with
      | Except.error err =>
        (Except.error ⟨Status.GenericFailure,
          "Read file " ++ dbgQuote e.path ++ " failed: " ++ err⟩, [])
      | Except.ok content =>
        let call : LintCall R D :=
          ⟨rules, get_media_type e.path, e.path,
            E.lintFile rules (get_media_type e.path) e.path content⟩
        match E.lintFile rules (get_media_type e.path) e.path content with
        | Except.error lerr =>
          (Except.error ⟨Status.GenericFailure,
            "Lint failed: " ++ lerr ++ ", at: " ++ dbgQuote e.path⟩, [call])
        | Except.ok diags =>
          match E.display diags e.path with
          | Except.error derr => (Except.error ⟨Status.GenericFailure, derr⟩, [call])
          | Except.ok _issues =>
            ((processEntries E rules rest (hasError || !diags.isEmpty)).fst,
              call :: (processEntries E rules rest (hasError || !diags.isEmpty)).snd)
    else processEntries E rules rest hasError

/-- Modelled from the spec: config.rs is not under src/. A loaded
configuration provides its declared rule list via get_rules (opaque here,
of abstract type R) and the files.include / files.exclude path lists. -/
structure Config (R : Type) : Type where
  rules : R
  excludePaths : List String
  includePaths : List String

/-- Embedding of the rule-set and path-list selection of denolint (lib.rs
lines 116-125): when the config file exists on disk, load it (propagating
a loader failure) and take its declared rules and files lists; otherwise
use the recommended default rules and empty lists. -/
def denolintRules {R : Type} (configExisted : Bool)
    (loadConfig : Except NapiError (Config R)) (recommendedRules : R) :
    Except NapiError (R × List String × List String) :=
  if configExisted then
    match loadConfig with
    | Except.ok cfg => Except.ok (cfg.rules, cfg.excludePaths, cfg.includePaths)
    | Except.error err => Except.error err
  else Except.ok (recommendedRules, [], [])

/-- The entries kept by the walk loop, which drops every walker result
that is an error (lib.rs line 208, filter_map over Result::ok). -/
def okEntries {ε : Type} (results : List (Except ε Entry)) : List Entry :=
  results.filterMap (fun r =>
    match r with
    | Except.ok e => some e
    | Except.error _ => none)

/-- Embedding of the napi function denolint (lib.rs lines 103-243):
determine whether the config file exists (fsIsFile oracle on configPath),
select the rules and files lists, select the ignore file, assemble the
walker, and run the scan loop over the walker's results (walkResults
oracle, a function of the assembled plan, whose error entries are
dropped), starting with has_error = false. Returns the loop result
together with the trace of lint invocations. -/
def denolint {R D ε : Type} (E : Engine R D) (canonicalize : String → Option String)
    (openOk fsIsFile : String → Bool) (cwd : String)
    (loadConfig : Except NapiError (Config R)) (recommendedRules : R)
    (walkResults : WalkPlan → List (Except ε Entry))
    (dirname configPath : String) (scanDirs : Option (List String)) :
    Except NapiError Bool × List (LintCall R D) :=
  let configExisted := fsIsFile configPath
  match denolintRules configExisted loadConfig recommendedRules with
  | Except.error err => (Except.error err, [])
  | Except.ok (rules, cfgIgnore, cfgAdd) =>
    let ignoreFilePath := selectIgnoreFile openOk cwd dirname
    let plan := buildWalkPlan canonicalize cwd ignoreFilePath cfgIgnore cfgAdd scanDirs
    processEntries E rules (okEntries (walkResults plan)) false
/-- Claim C8: media-type classification is a total deterministic function
of the path's extension: tsx maps to Tsx, jsx to Jsx, js and mjs to
JavaScript, ts to TypeScript, and every other extension (including a
missing one) maps to Tsx. -/
theorem get_media_type_spec (p : String) :
    (rustExtension p = some "tsx" → get_media_type p = MediaType.Tsx) ∧
    (rustExtension p = some "jsx" → get_media_type p = MediaType.Jsx) ∧
    ((rustExtension p = some "js" ∨ rustExtension p = some "mjs") →
      get_media_type p = MediaType.JavaScript) ∧
    (rustExtension p = some "ts" → get_media_type p = MediaType.TypeScript) ∧
    (rustExtension p ∉ [some "tsx", some "jsx", some "js", some "mjs", some "ts"] →
      get_media_type p = MediaType.Tsx) := by
  refine ⟨?_, ?_, ?_, ?_, ?_⟩
  · intro h; unfold get_media_type; rw [h]; decide
  · intro h; unfold get_media_type; rw [h]; decide
  · rintro (h | h) <;> (unfold get_media_type; rw [h]; decide)
  · intro h; unfold get_media_type; rw [h]; decide
  · intro h
    unfold get_media_type
    rcases he : rustExtension p with _ | e
    · rfl
    · rw [he] at h
      simp only [List.mem_cons, List.not_mem_nil, or_false, Option.some.injEq, not_or] at h
      obtain ⟨h1, h2, h3, h4, h5⟩ := h
      simp [h1, h2, h3, h4, h5]

/-- Witness for C8: each extension case evaluated at a concrete path. -/
theorem get_media_type_spec_witness :
    get_media_type "a.tsx" = MediaType.Tsx ∧
    get_media_type "b.jsx" = MediaType.Jsx ∧
    get_media_type "c.js" = MediaType.JavaScript ∧
    get_media_type "d.mjs" = MediaType.JavaScript ∧
    get_media_type "e.ts" = MediaType.TypeScript ∧
    get_media_type "README.md" = MediaType.Tsx ∧
    get_media_type "noext" = MediaType.Tsx :=
  ⟨(get_media_type_spec "a.tsx").1 (by decide),
   (get_media_type_spec "b.jsx").2.1 (by decide),
   (get_media_type_spec "c.js").2.2.1 (Or.inl (by decide)),
   (get_media_type_spec "d.mjs").2.2.1 (Or.inr (by decide)),
   (get_media_type_spec "e.ts").2.2.2.1 (by decide),
   (get_media_type_spec "README.md").2.2.2.2 (by decide),
   (get_media_type_spec "noext").2.2.2.2 (by decide)⟩

/-- Claim C10: extension matching is case-sensitive: an extension that is a
case variant of one of the mapped lowercase extensions, but differs from
it, falls through to the default Tsx dialect. -/
theorem get_media_type_case_sensitive (p e : String) (hext : rustExtension p = some e)
    (hlow : lowerStr e ∈ ["tsx", "jsx", "js", "mjs", "ts"]) (hne : e ≠ lowerStr e) :
    get_media_type p = MediaType.Tsx := by
  have hnot : e ∉ ["tsx", "jsx", "js", "mjs", "ts"] := by
    intro hmem
    simp only [List.mem_cons, List.not_mem_nil, or_false] at hmem
    rcases hmem with h | h | h | h | h <;> (subst h; exact hne (by decide))
  simp only [List.mem_cons, List.not_mem_nil, or_false, not_or] at hnot
  obtain ⟨h1, h2, h3, h4, h5⟩ := hnot
  unfold get_media_type
  rw [hext]
  simp [h1, h2, h3, h4, h5]

/-- Witness for C10: the uppercase extension TS is not mapped to
TypeScript but to the default Tsx. -/
theorem get_media_type_case_sensitive_witness :
    rustExtension "a.TS" = some "TS" ∧ get_media_type "a.TS" = MediaType.Tsx :=
  ⟨by decide, get_media_type_case_sensitive "a.TS" "TS" (by decide) (by decide) (by decide)⟩

/-- Claim C1 (code bug): with no explicit scan directories and a config
whose files.include is ["src"], the walk root is the working directory,
not the resolved first include entry required by the spec: the binding
that resolves the include entry is discarded by the shadowed walker
bindings in lib.rs lines 168-181. -/
theorem denolint_walk_root_bug :
    (buildWalkPlan some "/proj" "/proj/.denolintignore" [] ["src"] none).root = "/proj" ∧
    make_absolute some "src" "/proj" = "/proj/src" ∧
    (buildWalkPlan some "/proj" "/proj/.denolintignore" [] ["src"] none).root ≠
      make_absolute some "src" "/proj" := by
  refine ⟨rfl, by decide, by decide⟩

/-- Claim C3 (code bug): for a concrete relative path whose
canonicalization fails, make_absolute returns the raw input path, not the
uncanonicalized joined path stated by the spec. -/
theorem make_absolute_fallback_bug :
    make_absolute (fun _ => none) "newfile.ts" "/proj" = "newfile.ts" ∧
    pushPath "/proj" "newfile.ts" = "/proj/newfile.ts" ∧
    make_absolute (fun _ => none) "newfile.ts" "/proj" ≠ pushPath "/proj" "newfile.ts" := by
  refine ⟨rfl, by decide, by decide⟩

/-- Claim C6: ignore-file selection checks the two well-known file names
in the working directory only (the result depends on nothing but those
two existence checks), preferring .denolintignore, then .eslintignore,
then the caller-supplied default directory path. -/
theorem selectIgnoreFile_spec (openOk openOk1 : String → Bool) (cwd dirname : String) :
    (openOk (pushPath cwd ".denolintignore") = openOk1 (pushPath cwd ".denolintignore") →
      openOk (pushPath cwd ".eslintignore") = openOk1 (pushPath cwd ".eslintignore") →
      selectIgnoreFile openOk cwd dirname = selectIgnoreFile openOk1 cwd dirname) ∧
    (openOk (pushPath cwd ".denolintignore") = true →
      selectIgnoreFile openOk cwd dirname = pushPath cwd ".denolintignore") ∧
    (openOk (pushPath cwd ".denolintignore") = false →
      openOk (pushPath cwd ".eslintignore") = true →
      selectIgnoreFile openOk cwd dirname = pushPath cwd ".eslintignore") ∧
    (openOk (pushPath cwd ".denolintignore") = false →
      openOk (pushPath cwd ".eslintignore") = false →
      selectIgnoreFile openOk cwd dirname = dirname) := by
  refine ⟨?_, ?_, ?_, ?_⟩
  · intro h1 h2; simp only [selectIgnoreFile]; rw [h1, h2]
  · intro h1; simp [selectIgnoreFile, h1]
  · intro h1 h2; simp [selectIgnoreFile, h1, h2]
  · intro h1 h2; simp [selectIgnoreFile, h1, h2]

/-- Witness for C6: the three precedence cases at concrete existence
oracles. -/
theorem selectIgnoreFile_spec_witness :
    selectIgnoreFile (fun _ => true) "/w" "/inst" = "/w/.denolintignore" ∧
    selectIgnoreFile (fun s => s == "/w/.eslintignore") "/w" "/inst" = "/w/.eslintignore" ∧
    selectIgnoreFile (fun _ => false) "/w" "/inst" = "/inst" :=
  ⟨((selectIgnoreFile_spec (fun _ => true) (fun _ => true) "/w" "/inst").2.1 rfl).trans
      (by decide),
   ((selectIgnoreFile_spec (fun s => s == "/w/.eslintignore")
        (fun s => s == "/w/.eslintignore") "/w" "/inst").2.2.1 (by decide) (by decide)).trans
      (by decide),
   (selectIgnoreFile_spec (fun _ => false) (fun _ => false) "/w" "/inst").2.2.2 rfl rfl⟩
/-- A concrete engine whose collaborators all succeed, used to evaluate
the embedding on concrete inputs. -/
def engOkUnit : Engine Unit Unit :=
  ⟨fun _ _ _ => (), fun _ => Except.ok "", fun _ _ _ _ => Except.ok [], fun _ _ => Except.ok []⟩

/-- A concrete engine whose collaborators all fail, used to show that a
result does not depend on the engine. -/
def engErrUnit : Engine Unit Unit :=
  ⟨fun _ _ _ => (), fun _ => Except.error "io", fun _ _ _ _ => Except.error "engine",
    fun _ _ => Except.error "format"⟩

/-- Claim C4 (counterexample): at the non-UTF-8 buffer [255] with file
name "x.ts", lint fails with the decoding error, but the error message
does not mention the file name anywhere, contradicting the claim that the
message names the file being linted. -/
theorem lint_utf8_counterexample :
    lint engOkUnit "x.ts" (Sum.inr [255]) none none none =
      Except.error ⟨Status.StringExpected,
        "Input source is not valid utf8 string invalid utf-8 sequence of 1 bytes from index 0"⟩ ∧
    strOccurs "x.ts"
      "Input source is not valid utf8 string invalid utf-8 sequence of 1 bytes from index 0" =
      false := by
  constructor <;> decide

/-- Claim C4 (amended): for every byte buffer that is not valid UTF-8,
lint fails with a decoding error of status StringExpected whose message
contains the decoding failure detail (but not the file name), and the
lint engine is never invoked on that buffer: the result is the same for
every engine. -/
theorem lint_utf8_error_spec {R D : Type} (E Eb : Engine R D) (fn : String) (b : List Nat)
    (e : Utf8Error) (ar : Option Bool) (ex inc : Option (List String))
    (h : str_from_utf8 b = Except.error e) :
    lint E fn (Sum.inr b) ar ex inc =
      Except.error ⟨Status.StringExpected,
        "Input source is not valid utf8 string " ++ utf8ErrorDisplay e⟩ ∧
    lint E fn (Sum.inr b) ar ex inc = lint Eb fn (Sum.inr b) ar ex inc := by
  constructor <;> simp [lint, h]

/-- Witness for C4 (amended): the buffer [255] is rejected with the
decoding error, with the same outcome under an all-succeeding and an
all-failing engine. -/
theorem lint_utf8_error_spec_witness :
    str_from_utf8 [255] = Except.error ⟨0, some 1⟩ ∧
    lint engOkUnit "x.ts" (Sum.inr [255]) none none none =
      Except.error ⟨Status.StringExpected,
        "Input source is not valid utf8 string " ++ utf8ErrorDisplay ⟨0, some 1⟩⟩ ∧
    lint engOkUnit "x.ts" (Sum.inr [255]) none none none =
      lint engErrUnit "x.ts" (Sum.inr [255]) none none none :=
  ⟨by decide,
   (lint_utf8_error_spec engOkUnit engErrUnit "x.ts" [255] ⟨0, some 1⟩ none none none
      (by decide)).1,
   (lint_utf8_error_spec engOkUnit engErrUnit "x.ts" [255] ⟨0, some 1⟩ none none none
      (by decide)).2⟩
/-- Every lint invocation recorded by the scan loop uses exactly the rule
set the loop was given. -/
theorem processEntries_rules_eq {R D : Type} (E : Engine R D) (rules : R) :
    ∀ (es : List Entry) (acc : Bool) (c : LintCall R D),
      c ∈ (processEntries E rules es acc).snd → c.rules = rules := by
  intro es
  induction es with
  | nil => intro acc c hc; simp [processEntries] at hc
  | cons e rest ih =>
    intro acc c hc
    cases hf : e.isFile
    · simp only [processEntries, hf] at hc
      exact ih acc c hc
    · rcases hr : E.readFile e.path with err | content
      · simp [processEntries, hf, hr] at hc
      · rcases hl : E.lintFile rules (get_media_type e.path) e.path content with lerr | diags
        · simp [processEntries, hf, hr, hl] at hc
          subst hc; rfl
        · rcases hd : E.display diags e.path with derr | issues
          · simp [processEntries, hf, hr, hl, hd] at hc
            subst hc; rfl
          · simp [processEntries, hf, hr, hl, hd] at hc
            rcases hc with hc | hc
            · subst hc; rfl
            · exact ih _ c hc

/-- The scan loop over an appended list runs the first part and, when it
did not abort, continues over the second part from the accumulated
verdict, concatenating the traces. -/
theorem processEntries_append {R D : Type} (E : Engine R D) (rules : R) :
    ∀ (xs ys : List Entry) (acc : Bool),
      processEntries E rules (xs ++ ys) acc =
        (match processEntries E rules xs acc with
         | (Except.ok bm, calls) =>
           ((processEntries E rules ys bm).fst, calls ++ (processEntries E rules ys bm).snd)
         | (Except.error err, calls) => (Except.error err, calls)) := by
  intro xs
  induction xs with
  | nil =>
    intro ys acc
    simp [processEntries]
  | cons e rest ih =>
    intro ys acc
    cases hf : e.isFile
    · simp only [List.cons_append, processEntries, hf]
      exact ih ys acc
    · rcases hr : E.readFile e.path with err | content
      · simp [processEntries, hf, hr]
      · rcases hl : E.lintFile rules (get_media_type e.path) e.path content with lerr | diags
        · simp [processEntries, hf, hr, hl]
        · rcases hd : E.display diags e.path with derr | issues
          · simp [processEntries, hf, hr, hl, hd]
          · simp only [List.cons_append, processEntries, hf, hr, hl, hd, if_true,
              List.append_eq]
            rw [ih ys (acc || !diags.isEmpty)]
            rcases hp : processEntries E rules rest (acc || !diags.isEmpty) with ⟨res, calls⟩
            cases res <;> simp
/-- When the scan loop completes without aborting, the verdict it returns
is the disjunction of the initial accumulator with the non-emptiness of
the diagnostics of some recorded lint invocation. -/
theorem processEntries_verdict {R D : Type} (E : Engine R D) (rules : R) :
    ∀ (es : List Entry) (acc b : Bool) (calls : List (LintCall R D)),
      processEntries E rules es acc = (Except.ok b, calls) →
      (b = true ↔ acc = true ∨ ∃ c ∈ calls, ∃ ds, c.result = Except.ok ds ∧ ds ≠ []) := by
  intro es
  induction es with
  | nil =>
    intro acc b calls h
    simp only [processEntries, Prod.mk.injEq, Except.ok.injEq] at h
    obtain ⟨hb, hc⟩ := h
    subst hb; subst hc
    simp
  | cons e rest ih =>
    intro acc b calls h
    cases hf : e.isFile
    · simp only [processEntries, hf] at h
      exact ih acc b calls h
    · rcases hr : E.readFile e.path with err | content
      · simp [processEntries, hf, hr] at h
      · rcases hl : E.lintFile rules (get_media_type e.path) e.path content with lerr | diags
        · simp [processEntries, hf, hr, hl] at h
        · rcases hd : E.display diags e.path with derr | issues
          · simp [processEntries, hf, hr, hl, hd] at h
          · simp only [processEntries, hf, hr, hl, hd, if_true, Prod.mk.injEq] at h
            obtain ⟨h1, h2⟩ := h
            subst h2
            have hpr : processEntries E rules rest (acc || !diags.isEmpty) =
                (Except.ok b, (processEntries E rules rest (acc || !diags.isEmpty)).snd) := by
              rw [← h1]
            have hiff := ih (acc || !diags.isEmpty) b _ hpr
            rw [hiff]
            have hne : ((!diags.isEmpty) = true) ↔ diags ≠ [] := by
              cases diags <;> simp
            simp only [Bool.or_eq_true, hne, List.mem_cons, hl]
            constructor
            · rintro (((ha | hd2) | hex))
              · exact Or.inl ha
              · exact Or.inr ⟨_, Or.inl rfl, diags, rfl, hd2⟩
              · obtain ⟨c, hc, ds, hds, hdne⟩ := hex
                exact Or.inr ⟨c, Or.inr hc, ds, hds, hdne⟩
            · rintro (ha | ⟨c, hc | hc, ds, hds, hdne⟩)
              · exact Or.inl (Or.inl ha)
              · subst hc
                simp only [Except.ok.injEq] at hds
                subst hds
                exact Or.inl (Or.inr hdne)
              · exact Or.inr ⟨c, hc, ds, hds, hdne⟩
/-- Claim C2: when denolint completes without an error, the boolean it
returns is true exactly when some linted file produced a non-empty
diagnostics list. -/
theorem denolint_verdict_spec {R D ε : Type} (E : Engine R D)
    (canonicalize : String → Option String) (openOk fsIsFile : String → Bool) (cwd : String)
    (loadConfig : Except NapiError (Config R)) (recommendedRules : R)
    (walkResults : WalkPlan → List (Except ε Entry)) (dirname configPath : String)
    (scanDirs : Option (List String)) (b : Bool)
    (h : (denolint E canonicalize openOk fsIsFile cwd loadConfig recommendedRules walkResults
        dirname configPath scanDirs).fst = Except.ok b) :
    (b = true ↔
      ∃ c ∈ (denolint E canonicalize openOk fsIsFile cwd loadConfig recommendedRules walkResults
          dirname configPath scanDirs).snd,
        ∃ ds, c.result = Except.ok ds ∧ ds ≠ []) := by
  rcases hdr : denolintRules (fsIsFile configPath) loadConfig recommendedRules with
    err | ⟨rules, cfgIgnore, cfgAdd⟩
  · simp [denolint, hdr] at h
  · simp only [denolint, hdr] at h ⊢
    have key : ∀ (es : List Entry), (processEntries E rules es false).fst = Except.ok b →
        (b = true ↔
          ∃ c ∈ (processEntries E rules es false).snd,
            ∃ ds, c.result = Except.ok ds ∧ ds ≠ []) := by
      intro es hh
      have hpe : processEntries E rules es false =
          (Except.ok b, (processEntries E rules es false).snd) := by
        rw [← hh]
      have hiff := processEntries_verdict E rules es false b _ hpe
      simpa using hiff
    exact key _ h

/-- Witness for C2: a run over two files where only the first yields a
diagnostic returns true, and the recorded lint invocations contain one
with a non-empty diagnostics list. -/
theorem denolint_verdict_spec_witness :
    (true = true ↔
      ∃ c ∈ (denolint
          (⟨fun _ _ _ => "flags", fun _ => Except.ok "code",
            fun _ _ p _ => if p = "/a.ts" then Except.ok [7] else Except.ok ([] : List Nat),
            fun _ _ => Except.ok []⟩ : Engine String Nat)
          some (fun _ => false) (fun _ => false) "/w"
          (Except.error ⟨Status.GenericFailure, "no config"⟩) "rec"
          (fun _ => ([Except.ok ⟨"/a.ts", true⟩, Except.ok ⟨"/b.ts", true⟩] :
            List (Except Unit Entry)))
          "/inst" "/conf.json" none).snd,
        ∃ ds, c.result = Except.ok ds ∧ ds ≠ []) :=
  denolint_verdict_spec
    (⟨fun _ _ _ => "flags", fun _ => Except.ok "code",
      fun _ _ p _ => if p = "/a.ts" then Except.ok [7] else Except.ok ([] : List Nat),
      fun _ _ => Except.ok []⟩ : Engine String Nat)
    some (fun _ => false) (fun _ => false) "/w"
    (Except.error ⟨Status.GenericFailure, "no config"⟩) "rec"
    (fun _ => ([Except.ok ⟨"/a.ts", true⟩, Except.ok ⟨"/b.ts", true⟩] :
      List (Except Unit Entry)))
    "/inst" "/conf.json" none true (by decide)

/-- Claim C5: a file whose content cannot be read (for example, not valid
UTF-8) aborts the whole scan: after any successfully processed leading
entries, the loop returns the error wrapping the offending path and the
failure detail, and the result does not depend on the entries that follow
the bad file. -/
theorem denolint_read_error_fatal {R D : Type} (E : Engine R D) (rules : R)
    (pre post post1 : List Entry) (bad : Entry) (detail : String) (b : Bool)
    (calls : List (LintCall R D))
    (hfile : bad.isFile = true)
    (hread : E.readFile bad.path = Except.error detail)
    (hpre : processEntries E rules pre false = (Except.ok b, calls)) :
    processEntries E rules (pre ++ bad :: post) false =
      (Except.error ⟨Status.GenericFailure,
        "Read file " ++ dbgQuote bad.path ++ " failed: " ++ detail⟩, calls) ∧
    processEntries E rules (pre ++ bad :: post) false =
      processEntries E rules (pre ++ bad :: post1) false := by
  have hstep : ∀ (zs : List Entry), processEntries E rules (bad :: zs) b =
      (Except.error ⟨Status.GenericFailure,
        "Read file " ++ dbgQuote bad.path ++ " failed: " ++ detail⟩, []) := by
    intro zs
    simp [processEntries, hfile, hread]
  constructor
  · rw [processEntries_append E rules pre (bad :: post) false, hpre]
    simp [hstep]
  · rw [processEntries_append E rules pre (bad :: post) false,
      processEntries_append E rules pre (bad :: post1) false, hpre]
    simp [hstep]

/-- A concrete engine whose read fails on one specific path, used to
evaluate the scan loop on concrete inputs. -/
def engBadRead : Engine String Nat :=
  ⟨fun _ _ _ => "flags",
    fun p => if p = "/bad.ts" then Except.error "stream did not contain valid UTF-8"
      else Except.ok "let x = 1",
    fun _ _ _ _ => Except.ok [], fun _ _ => Except.ok []⟩

/-- Witness for C5: with a good file before it and another file after it,
the unreadable file aborts the loop with the wrapped message, and the
trailing file does not influence the result. -/
theorem denolint_read_error_fatal_witness :
    processEntries engBadRead "rec"
        ([⟨"/good.ts", true⟩] ++ (⟨"/bad.ts", true⟩ : Entry) :: [⟨"/after.ts", true⟩]) false =
      (Except.error ⟨Status.GenericFailure,
        "Read file " ++ dbgQuote "/bad.ts" ++ " failed: " ++
          "stream did not contain valid UTF-8"⟩,
        [⟨"rec", MediaType.TypeScript, "/good.ts", Except.ok []⟩]) ∧
    processEntries engBadRead "rec"
        ([⟨"/good.ts", true⟩] ++ (⟨"/bad.ts", true⟩ : Entry) :: [⟨"/after.ts", true⟩]) false =
      processEntries engBadRead "rec"
        ([⟨"/good.ts", true⟩] ++ (⟨"/bad.ts", true⟩ : Entry) :: []) false :=
  denolint_read_error_fatal engBadRead "rec" [⟨"/good.ts", true⟩] [⟨"/after.ts", true⟩] []
    ⟨"/bad.ts", true⟩ "stream did not contain valid UTF-8" false
    [⟨"rec", MediaType.TypeScript, "/good.ts", Except.ok []⟩] rfl (by decide) (by decide)

/-- Claim C7: every lint invocation performed by denolint uses the
config-declared rule set when the config file exists (and was loaded),
and the recommended default rule set when it does not; denolint takes no
per-call rule flags at all. -/
theorem denolint_rules_spec {R D ε : Type} (E : Engine R D)
    (canonicalize : String → Option String) (openOk fsIsFile : String → Bool) (cwd : String)
    (loadConfig : Except NapiError (Config R)) (recommendedRules : R)
    (walkResults : WalkPlan → List (Except ε Entry)) (dirname configPath : String)
    (scanDirs : Option (List String)) (c : LintCall R D)
    (hmem : c ∈ (denolint E canonicalize openOk fsIsFile cwd loadConfig recommendedRules
        walkResults dirname configPath scanDirs).snd) :
    (fsIsFile configPath = true → ∃ cfg, loadConfig = Except.ok cfg ∧ c.rules = cfg.rules) ∧
    (fsIsFile configPath = false → c.rules = recommendedRules) := by
  cases hex : fsIsFile configPath
  · constructor
    · intro hcontra; exact absurd hcontra (by simp)
    · intro _
      simp only [denolint, denolintRules, hex, Bool.false_eq_true, if_false] at hmem
      exact processEntries_rules_eq E recommendedRules _ false c hmem
  · constructor
    · intro _
      rcases hlc : loadConfig with err | cfg
      · simp [denolint, denolintRules, hex, hlc] at hmem
      · refine ⟨cfg, rfl, ?_⟩
        simp only [denolint, denolintRules, hex, hlc, if_true] at hmem
        exact processEntries_rules_eq E cfg.rules _ false c hmem
    · intro hcontra; exact absurd hcontra (by simp)

/-- Witness for C7: with no config file on disk, the single recorded lint
invocation carries the recommended rule set. -/
theorem denolint_rules_spec_witness :
    ((fun _ => false : String → Bool) "/conf.json" = true →
      ∃ cfg, (Except.error ⟨Status.GenericFailure, "no config"⟩ :
          Except NapiError (Config String)) = Except.ok cfg ∧
        (⟨"rec", MediaType.TypeScript, "/a.ts", Except.ok []⟩ : LintCall String Nat).rules =
          cfg.rules) ∧
    ((fun _ => false : String → Bool) "/conf.json" = false →
      (⟨"rec", MediaType.TypeScript, "/a.ts", Except.ok []⟩ : LintCall String Nat).rules =
        "rec") :=
  denolint_rules_spec
    (⟨fun _ _ _ => "flags", fun _ => Except.ok "code", fun _ _ _ _ => Except.ok [],
      fun _ _ => Except.ok []⟩ : Engine String Nat)
    some (fun _ => true) (fun _ => false) "/w"
    (Except.error ⟨Status.GenericFailure, "no config"⟩) "rec"
    (fun _ => ([Except.ok ⟨"/a.ts", true⟩] : List (Except Unit Entry)))
    "/inst" "/conf.json" none
    ⟨"rec", MediaType.TypeScript, "/a.ts", Except.ok []⟩ (by decide)

/-- Claim C9: a walker entry that is an error is silently dropped: the
whole denolint run on a result sequence containing an error entry equals
the run on the same sequence without it, so the error neither aborts the
run nor reaches the caller. -/
theorem denolint_walk_error_spec {R D ε : Type} (E : Engine R D)
    (canonicalize : String → Option String) (openOk fsIsFile : String → Bool) (cwd : String)
    (loadConfig : Except NapiError (Config R)) (recommendedRules : R)
    (pre post : List (Except ε Entry)) (werr : ε)
    (dirname configPath : String) (scanDirs : Option (List String)) :
    denolint E canonicalize openOk fsIsFile cwd loadConfig recommendedRules
      (fun _ => pre ++ Except.error werr :: post) dirname configPath scanDirs =
    denolint E canonicalize openOk fsIsFile cwd loadConfig recommendedRules
      (fun _ => pre ++ post) dirname configPath scanDirs := by
  have hok : okEntries (pre ++ Except.error werr :: post) = okEntries (pre ++ post) := by
    simp [okEntries, List.filterMap_append, List.filterMap_cons]
  rcases hdr : denolintRules (fsIsFile configPath) loadConfig recommendedRules with
    err | ⟨rules, cfgIgnore, cfgAdd⟩ <;>
    simp only [denolint, hdr]
  rw [hok]
